import Mathlib

/-!
Verification of the Go-Learning repository: a shallow embedding of the
struct layout calculator described by the notes in GolangBasics/main.go,
of the pointer demonstration in the unnamed source file, and of the
zero-value variable declarations in main.
-/

/-- Modelled from the spec: a field descriptor of the struct layout
calculator, carrying the byte size of the field and the byte boundary
the offset of the field must be a multiple of. The calculator itself is
described in the repository only by its alignment-rule notes, so the
data model follows the specification text. -/
structure FieldDescriptor where
  size : Nat
  alignment : Nat
deriving DecidableEq

/-- Modelled from the spec: the two error kinds of the layout calculator. -/
inductive LayoutError where
  | InvalidAlignment : LayoutError
  | InvalidSize : LayoutError
deriving DecidableEq

/-- Modelled from the spec: the result of the layout calculator, an ordered
sequence of pairs of a field and its byte offset, and the total padded
size of the aggregate. -/
structure Layout where
  pairs : List (FieldDescriptor × Nat)
  totalSize : Nat
deriving DecidableEq

/-- Modelled from the spec: whether a number is a positive power of two,
stated as the existence of an exponent. -/
def isPowerOfTwo (n : Nat) : Bool :=
  decide (∃ k, k ≤ n ∧ n = 2 ^ k)

/-- Modelled from the spec: round `cursor` up to the next multiple of
`align`, the ceiling-division formula of the alignment rule notes. -/
def roundUp (cursor align : Nat) : Nat :=
  (cursor + align - 1) / align * align

/-- Modelled from the spec: the single pass of the layout algorithm. Given
the remaining fields, the running cursor and the running maximum alignment,
it yields the recorded pairs together with the final cursor and the final
maximum alignment. -/
def layoutFields : List FieldDescriptor → Nat → Nat →
    List (FieldDescriptor × Nat) × Nat × Nat
  | [], cursor, maxAlign => ([], cursor, maxAlign)
  | f :: rest, cursor, maxAlign =>
    let offset := roundUp cursor f.alignment
    let r := layoutFields rest (offset + f.size) (max maxAlign f.alignment)
    ((f, offset) :: r.1, r.2)

/-- Modelled from the spec: the fail-fast validation pass run before any
offset computation, checking each field for a power-of-two alignment and a
positive size. -/
def validateFields : List FieldDescriptor → Except LayoutError Unit
  | [] => Except.ok ()
  | f :: rest =>
    if isPowerOfTwo f.alignment then
      if f.size = 0 then Except.error LayoutError.InvalidSize
      else validateFields rest
    else Except.error LayoutError.InvalidAlignment

/-- Modelled from the spec: the layout calculator. Validation runs first;
on success the single pass computes every offset, and the total size is the
final cursor rounded up to the next multiple of the maximum alignment. -/
def computeLayout (fields : List FieldDescriptor) : Except LayoutError Layout :=
  match validateFields fields with
  | Except.error e => Except.error e
  | Except.ok _ =>
    let r := layoutFields fields 0 1
    Except.ok ⟨r.1, roundUp r.2.1 r.2.2⟩

/-- Modelled from the spec: the running maximum of the field alignments,
started at one exactly as the algorithm initialises `maxAlignment`. -/
def maxAlignmentOf (fields : List FieldDescriptor) : Nat :=
  fields.foldl (fun m f => max m f.alignment) 1

/-- Consecutive recorded fields do not overlap: each offset plus the size
of its field is at most the next offset. -/
def noOverlapB : List (FieldDescriptor × Nat) → Bool
  | [] => true
  | [_] => true
  | p :: q :: rest =>
    decide (p.2 + p.1.size ≤ q.2) && noOverlapB (q :: rest)

/-- A power of two is positive. -/
theorem isPowerOfTwo_pos {n : Nat} (h : isPowerOfTwo n = true) : 0 < n := by
  obtain ⟨k, -, hk⟩ := of_decide_eq_true h
  rw [hk]
  exact pow_pos (by norm_num) k

/-- Rounding up yields a multiple of the alignment. -/
theorem roundUp_dvd (cursor align : Nat) : align ∣ roundUp cursor align :=
  dvd_mul_left align ((cursor + align - 1) / align)

/-- Rounding up never moves the cursor backwards when the alignment is
positive. -/
theorem le_roundUp (cursor : Nat) {align : Nat} (h : 0 < align) :
    cursor ≤ roundUp cursor align := by
  unfold roundUp
  rw [Nat.mul_comm]
  have hdm := Nat.div_add_mod (cursor + align - 1) align
  have hlt : (cursor + align - 1) % align < align := Nat.mod_lt _ h
  omega

/-- The single pass records the fields themselves, in input order. -/
theorem layoutFields_map_fst (fs : List FieldDescriptor) :
    ∀ cursor maxAlign, ((layoutFields fs cursor maxAlign).1.map Prod.fst) = fs := by
  induction fs with
  | nil => intro c m; rfl
  | cons f rest ih => intro c m; simp [layoutFields, ih]

/-- Every recorded offset is a multiple of the alignment of its field. -/
theorem layoutFields_align_dvd (fs : List FieldDescriptor) :
    ∀ cursor maxAlign, ∀ p ∈ (layoutFields fs cursor maxAlign).1,
      p.1.alignment ∣ p.2 := by
  induction fs with
  | nil => intro c m p hp; simp [layoutFields] at hp
  | cons f rest ih =>
    intro c m p hp
    simp only [layoutFields, List.mem_cons] at hp
    rcases hp with h1 | h2
    · rw [h1]
      exact roundUp_dvd c f.alignment
    · exact ih _ _ p h2

/-- When every alignment is positive, every recorded offset is at least the
cursor the pass started from. -/
theorem layoutFields_offsets_ge (fs : List FieldDescriptor) :
    ∀ cursor maxAlign, (∀ f ∈ fs, 0 < f.alignment) →
      ∀ p ∈ (layoutFields fs cursor maxAlign).1, cursor ≤ p.2 := by
  induction fs with
  | nil => intro c m _ p hp; simp [layoutFields] at hp
  | cons f rest ih =>
    intro c m hv p hp
    have hf : 0 < f.alignment := hv f (List.mem_cons_self f rest)
    simp only [layoutFields, List.mem_cons] at hp
    rcases hp with h1 | h2
    · rw [h1]
      exact le_roundUp c hf
    · have h3 := ih (roundUp c f.alignment + f.size) (max m f.alignment)
        (fun g hg => hv g (List.mem_cons_of_mem f hg)) p h2
      have h4 : c ≤ roundUp c f.alignment := le_roundUp c hf
      omega

/-- Prepending a pair below every element of a non-overlapping list keeps
the list non-overlapping. -/
theorem noOverlapB_cons (p : FieldDescriptor × Nat) (l : List (FieldDescriptor × Nat))
    (hl : noOverlapB l = true) (hbound : ∀ q ∈ l, p.2 + p.1.size ≤ q.2) :
    noOverlapB (p :: l) = true := by
  cases l with
  | nil => rfl
  | cons q rest =>
    have h1 : p.2 + p.1.size ≤ q.2 := hbound q (List.mem_cons_self q rest)
    simp only [noOverlapB, Bool.and_eq_true, decide_eq_true_eq]
    exact ⟨h1, hl⟩

/-- When every alignment is positive, the recorded pairs never overlap. -/
theorem layoutFields_noOverlap (fs : List FieldDescriptor) :
    ∀ cursor maxAlign, (∀ f ∈ fs, 0 < f.alignment) →
      noOverlapB (layoutFields fs cursor maxAlign).1 = true := by
  induction fs with
  | nil => intro c m _; rfl
  | cons f rest ih =>
    intro c m hv
    have hrest : ∀ x ∈ rest, 0 < x.alignment :=
      fun x hx => hv x (List.mem_cons_of_mem f hx)
    have htail := ih (roundUp c f.alignment + f.size) (max m f.alignment) hrest
    have hbound := layoutFields_offsets_ge rest
      (roundUp c f.alignment + f.size) (max m f.alignment) hrest
    show noOverlapB ((f, roundUp c f.alignment) ::
      (layoutFields rest (roundUp c f.alignment + f.size) (max m f.alignment)).1) = true
    exact noOverlapB_cons _ _ htail hbound

/-- The maximum-alignment accumulator of the pass is a fold of max over the
alignments, independent of the cursor. -/
theorem layoutFields_maxAlign (fs : List FieldDescriptor) :
    ∀ cursor m, (layoutFields fs cursor m).2.2 =
      fs.foldl (fun acc f => max acc f.alignment) m := by
  induction fs with
  | nil => intro c m; rfl
  | cons f rest ih => intro c m; simp [layoutFields, ih]

/-- A fold of max bounds its seed and every element of the list. -/
theorem foldl_max_le (l : List Nat) :
    ∀ m, m ≤ l.foldl max m ∧ ∀ x ∈ l, x ≤ l.foldl max m := by
  induction l with
  | nil => intro m; exact ⟨le_refl m, by simp⟩
  | cons x l ih =>
    intro m
    obtain ⟨h1, h2⟩ := ih (max m x)
    simp only [List.foldl_cons]
    refine ⟨le_trans (le_max_left m x) h1, ?_⟩
    intro y hy
    rcases List.mem_cons.mp hy with h | h
    · rw [h]
      exact le_trans (le_max_right m x) h1
    · exact h2 y h

/-- A fold of max is either the seed or an element of the list. -/
theorem foldl_max_eq_or_mem (l : List Nat) :
    ∀ m, l.foldl max m = m ∨ l.foldl max m ∈ l := by
  induction l with
  | nil => intro m; exact Or.inl rfl
  | cons x l ih =>
    intro m
    simp only [List.foldl_cons]
    rcases ih (max m x) with h | h
    · rcases max_choice m x with hc | hc
      · exact Or.inl (h.trans hc)
      · exact Or.inr (List.mem_cons.mpr (Or.inl (h.trans hc)))
    · exact Or.inr (List.mem_cons.mpr (Or.inr h))

/-- The running maximum alignment bounds every field alignment, and on a
non-empty list of fields with positive alignments it is attained by one of
them. -/
theorem maxAlignmentOf_spec (fields : List FieldDescriptor)
    (hv : ∀ f ∈ fields, 0 < f.alignment) :
    (∀ f ∈ fields, f.alignment ≤ maxAlignmentOf fields) ∧
    (fields ≠ [] → ∃ f ∈ fields, maxAlignmentOf fields = f.alignment) := by
  have hrw : maxAlignmentOf fields =
      (fields.map FieldDescriptor.alignment).foldl max 1 := by
    rw [List.foldl_map]
    rfl
  obtain ⟨h1, h2⟩ := foldl_max_le (fields.map FieldDescriptor.alignment) 1
  constructor
  · intro f hf
    rw [hrw]
    exact h2 f.alignment (List.mem_map_of_mem FieldDescriptor.alignment hf)
  · intro hne
    rcases foldl_max_eq_or_mem (fields.map FieldDescriptor.alignment) 1 with h | h
    · obtain ⟨f0, hf0⟩ := List.exists_mem_of_ne_nil fields hne
      refine ⟨f0, hf0, ?_⟩
      have hb : f0.alignment ≤ maxAlignmentOf fields := by
        rw [hrw]
        exact h2 f0.alignment (List.mem_map_of_mem FieldDescriptor.alignment hf0)
      have hp : 0 < f0.alignment := hv f0 hf0
      rw [hrw, h]
      rw [hrw, h] at hb
      omega
    · obtain ⟨f, hf, hfa⟩ := List.mem_map.mp h
      exact ⟨f, hf, by rw [hrw, hfa]⟩

/-- Validation succeeds exactly when every field has a power-of-two
alignment and a positive size; this direction extracts the per-field
facts from a successful validation. -/
theorem validateFields_ok : ∀ fs : List FieldDescriptor,
    validateFields fs = Except.ok () →
    ∀ f ∈ fs, isPowerOfTwo f.alignment = true ∧ f.size ≠ 0 := by
  intro fs
  induction fs with
  | nil => intro _ f hf; simp at hf
  | cons f rest ih =>
    intro h g hg
    by_cases ha : isPowerOfTwo f.alignment
    · by_cases hs : f.size = 0
      · simp [validateFields, ha, hs] at h
      · have h2 : validateFields rest = Except.ok () := by
          simpa [validateFields, ha, hs] using h
        rcases List.mem_cons.mp hg with h3 | h3
        · rw [h3]
          exact ⟨ha, hs⟩
        · exact ih h2 g h3
    · simp [validateFields, ha] at h

/-- Validation succeeds on a list whose fields all have a power-of-two
alignment and a positive size. -/
theorem validateFields_ok_of_valid : ∀ fs : List FieldDescriptor,
    (∀ f ∈ fs, isPowerOfTwo f.alignment = true ∧ f.size ≠ 0) →
    validateFields fs = Except.ok () := by
  intro fs
  induction fs with
  | nil => intro _; rfl
  | cons f rest ih =>
    intro hv
    obtain ⟨ha, hs⟩ := hv f (List.mem_cons_self f rest)
    have h2 := ih (fun g hg => hv g (List.mem_cons_of_mem f hg))
    simp [validateFields, ha, hs, h2]

/-- A validation error is one of the two kinds, each produced by a field
violating the corresponding precondition. -/
theorem validateFields_error : ∀ fs : List FieldDescriptor, ∀ e,
    validateFields fs = Except.error e →
    (e = LayoutError.InvalidAlignment ∧
      ∃ f ∈ fs, isPowerOfTwo f.alignment = false) ∨
    (e = LayoutError.InvalidSize ∧ ∃ f ∈ fs, f.size = 0) := by
  intro fs
  induction fs with
  | nil => intro e h; simp [validateFields] at h
  | cons f rest ih =>
    intro e h
    by_cases ha : isPowerOfTwo f.alignment
    · by_cases hs : f.size = 0
      · have he : e = LayoutError.InvalidSize := by
          simp [validateFields, ha, hs] at h
          exact h.symm
        exact Or.inr ⟨he, f, List.mem_cons_self f rest, hs⟩
      · have h2 : validateFields rest = Except.error e := by
          simpa [validateFields, ha, hs] using h
        rcases ih e h2 with ⟨he, g, hg, hgp⟩ | ⟨he, g, hg, hgp⟩
        · exact Or.inl ⟨he, g, List.mem_cons_of_mem f hg, hgp⟩
        · exact Or.inr ⟨he, g, List.mem_cons_of_mem f hg, hgp⟩
    · have he : e = LayoutError.InvalidAlignment := by
        simp [validateFields, ha] at h
        exact h.symm
      exact Or.inl ⟨he, f, List.mem_cons_self f rest, Bool.eq_false_iff.mpr ha⟩

/-- A successful run of the calculator is a successful validation followed
by the single pass, with the total size obtained by rounding the final
cursor up to the final maximum alignment. -/
theorem computeLayout_ok_elim (fields : List FieldDescriptor) (L : Layout)
    (h : computeLayout fields = Except.ok L) :
    validateFields fields = Except.ok () ∧
    L.pairs = (layoutFields fields 0 1).1 ∧
    L.totalSize = roundUp (layoutFields fields 0 1).2.1 (layoutFields fields 0 1).2.2 := by
  cases hv : validateFields fields with
  | error e => simp [computeLayout, hv] at h
  | ok u =>
    cases u
    have h2 : Layout.mk (layoutFields fields 0 1).1
        (roundUp (layoutFields fields 0 1).2.1 (layoutFields fields 0 1).2.2) = L := by
      have h3 := h
      simp [computeLayout, hv] at h3
      exact h3
    rw [← h2]
    exact ⟨rfl, rfl, rfl⟩

/-- Claim C1: for every valid input sequence of field descriptors, the
calculator assigns each field an offset obtained by rounding the running
cursor up to the next multiple of the alignment of that field, so every
recorded offset is a multiple of the alignment of its field. -/
theorem computeLayout_offsets_aligned (fields : List FieldDescriptor) (L : Layout)
    (h : computeLayout fields = Except.ok L) :
    ∀ p ∈ L.pairs, p.1.alignment ∣ p.2 := by
  obtain ⟨-, hp, -⟩ := computeLayout_ok_elim fields L h
  rw [hp]
  exact layoutFields_align_dvd fields 0 1

/-- Witness for C1 on the worked three-field example, at its second field. -/
theorem computeLayout_offsets_aligned_witness :
    (FieldDescriptor.mk 8 8).alignment ∣ 8 :=
  computeLayout_offsets_aligned [⟨1, 1⟩, ⟨8, 8⟩, ⟨1, 1⟩]
    ⟨[(⟨1, 1⟩, 0), (⟨8, 8⟩, 8), (⟨1, 1⟩, 16)], 24⟩ rfl (⟨8, 8⟩, 8) (by simp)

/-- Claim C2: for every valid input sequence, the total size is the final
cursor rounded up to the next multiple of the running maximum alignment,
hence a multiple of it; the running maximum bounds every field alignment
and, on a non-empty input, is the alignment of one of the fields, so the
total size is a multiple of the maximum field alignment. -/
theorem computeLayout_totalSize_multiple (fields : List FieldDescriptor) (L : Layout)
    (h : computeLayout fields = Except.ok L) :
    L.totalSize = roundUp (layoutFields fields 0 1).2.1 (maxAlignmentOf fields) ∧
    maxAlignmentOf fields ∣ L.totalSize ∧
    (∀ f ∈ fields, f.alignment ≤ maxAlignmentOf fields) ∧
    (fields ≠ [] → ∃ f ∈ fields, maxAlignmentOf fields = f.alignment) := by
  obtain ⟨hval, -, ht⟩ := computeLayout_ok_elim fields L h
  have hmax : (layoutFields fields 0 1).2.2 = maxAlignmentOf fields :=
    layoutFields_maxAlign fields 0 1
  have hv : ∀ f ∈ fields, 0 < f.alignment := fun f hf =>
    isPowerOfTwo_pos (validateFields_ok fields hval f hf).1
  obtain ⟨hub, hmem⟩ := maxAlignmentOf_spec fields hv
  refine ⟨by rw [ht, hmax], ?_, hub, hmem⟩
  rw [ht, hmax]
  exact roundUp_dvd _ _

/-- Witness for C2 on the one-field input of the spec's third concrete
case. -/
theorem computeLayout_totalSize_multiple_witness :
    Layout.totalSize ⟨[(⟨4, 4⟩, 0)], 4⟩ =
      roundUp (layoutFields [⟨4, 4⟩] 0 1).2.1 (maxAlignmentOf [⟨4, 4⟩]) ∧
    maxAlignmentOf [⟨4, 4⟩] ∣ Layout.totalSize ⟨[(⟨4, 4⟩, 0)], 4⟩ ∧
    (∀ f ∈ [FieldDescriptor.mk 4 4], f.alignment ≤ maxAlignmentOf [⟨4, 4⟩]) ∧
    ([FieldDescriptor.mk 4 4] ≠ [] →
      ∃ f ∈ [FieldDescriptor.mk 4 4], maxAlignmentOf [⟨4, 4⟩] = f.alignment) :=
  computeLayout_totalSize_multiple [⟨4, 4⟩] ⟨[(⟨4, 4⟩, 0)], 4⟩ rfl

/-- Claim C3: for every valid input sequence, the layout records exactly one
pair per input field, in input order and never reordered, and consecutive
recorded fields do not overlap: each offset plus the size of its field is
at most the next offset. -/
theorem computeLayout_order_noOverlap (fields : List FieldDescriptor) (L : Layout)
    (h : computeLayout fields = Except.ok L) :
    L.pairs.map Prod.fst = fields ∧ noOverlapB L.pairs = true := by
  obtain ⟨hval, hp, -⟩ := computeLayout_ok_elim fields L h
  have hv : ∀ f ∈ fields, 0 < f.alignment := fun f hf =>
    isPowerOfTwo_pos (validateFields_ok fields hval f hf).1
  rw [hp]
  exact ⟨layoutFields_map_fst fields 0 1, layoutFields_noOverlap fields 0 1 hv⟩

/-- Witness for C3 on the reordered three-field example. -/
theorem computeLayout_order_noOverlap_witness :
    List.map Prod.fst
        (Layout.pairs ⟨[(⟨8, 8⟩, 0), (⟨1, 1⟩, 8), (⟨1, 1⟩, 9)], 16⟩) =
      [FieldDescriptor.mk 8 8, FieldDescriptor.mk 1 1, FieldDescriptor.mk 1 1] ∧
    noOverlapB (Layout.pairs ⟨[(⟨8, 8⟩, 0), (⟨1, 1⟩, 8), (⟨1, 1⟩, 9)], 16⟩) = true :=
  computeLayout_order_noOverlap [⟨8, 8⟩, ⟨1, 1⟩, ⟨1, 1⟩]
    ⟨[(⟨8, 8⟩, 0), (⟨1, 1⟩, 8), (⟨1, 1⟩, 9)], 16⟩ rfl

/-- Claim C4: on the input corresponding to BadStruct, with fields of sizes
one, eight and one and matching alignments, the calculator returns offsets
zero, eight and sixteen and a total size of twenty-four. -/
theorem computeLayout_bad_struct :
    computeLayout [⟨1, 1⟩, ⟨8, 8⟩, ⟨1, 1⟩] =
      Except.ok ⟨[(⟨1, 1⟩, 0), (⟨8, 8⟩, 8), (⟨1, 1⟩, 16)], 24⟩ := rfl

/-- Claim C5: on the input corresponding to GoodStruct, with the eight-byte
field first, the calculator returns offsets zero, eight and nine and a
total size of sixteen. -/
theorem computeLayout_good_struct :
    computeLayout [⟨8, 8⟩, ⟨1, 1⟩, ⟨1, 1⟩] =
      Except.ok ⟨[(⟨8, 8⟩, 0), (⟨1, 1⟩, 8), (⟨1, 1⟩, 9)], 16⟩ := rfl

/-- Claim C6: the calculator fails with exactly the two declared error
kinds, InvalidAlignment for an alignment that is not a positive power of
two and InvalidSize for a size that is not positive; on an error no layout
is returned at all, every fully valid input succeeds, and the concrete
input with alignment three yields InvalidAlignment. -/
theorem computeLayout_error_spec :
    (∀ fields e, computeLayout fields = Except.error e →
      ((e = LayoutError.InvalidAlignment ∧
          ∃ f ∈ fields, isPowerOfTwo f.alignment = false) ∨
        (e = LayoutError.InvalidSize ∧ ∃ f ∈ fields, f.size = 0)) ∧
      ∀ L, computeLayout fields ≠ Except.ok L) ∧
    (∀ fields, (∀ f ∈ fields, isPowerOfTwo f.alignment = true ∧ f.size ≠ 0) →
      ∃ L, computeLayout fields = Except.ok L) ∧
    computeLayout [⟨4, 3⟩] = Except.error LayoutError.InvalidAlignment := by
  refine ⟨?_, ?_, rfl⟩
  · intro fields e h
    have hv : validateFields fields = Except.error e := by
      cases hval : validateFields fields with
      | error e2 =>
        have h2 : e2 = e := by simpa [computeLayout, hval] using h
        rw [h2]
      | ok u =>
        cases u
        simp [computeLayout, hval] at h
    refine ⟨validateFields_error fields e hv, ?_⟩
    intro L hL
    rw [h] at hL
    exact Except.noConfusion hL
  · intro fields hvalid
    have hok := validateFields_ok_of_valid fields hvalid
    exact ⟨⟨(layoutFields fields 0 1).1,
      roundUp (layoutFields fields 0 1).2.1 (layoutFields fields 0 1).2.2⟩,
      by simp [computeLayout, hok]⟩

/-- Claim C7: the calculator is deterministic, two invocations on identical
inputs return identical results; there is no hidden state beyond the
argument. -/
theorem computeLayout_deterministic (fs1 fs2 : List FieldDescriptor)
    (h : fs1 = fs2) : computeLayout fs1 = computeLayout fs2 := by
  rw [h]

/-- Witness for C7 on a concrete one-field input. -/
theorem computeLayout_deterministic_witness :
    computeLayout [(⟨4, 4⟩ : FieldDescriptor)] =
      computeLayout [(⟨4, 4⟩ : FieldDescriptor)] :=
  computeLayout_deterministic [⟨4, 4⟩] [⟨4, 4⟩] rfl

/-- Claim C8: the calculator terminates on every input, always yielding
either a layout or an error. -/
theorem computeLayout_total (fields : List FieldDescriptor) :
    (∃ L, computeLayout fields = Except.ok L) ∨
    (∃ e, computeLayout fields = Except.error e) := by
  cases h : computeLayout fields with
  | ok L => exact Or.inl ⟨L, rfl⟩
  | error e => exact Or.inr ⟨e, rfl⟩

/-- A store of the pointer demonstration: memory mapping addresses to
integer values, enough to give the two closures of the source their
pass-by-value and pass-by-pointer semantics. -/
def Store : Type := Nat → Int

/-- Reading the value held at an address. -/
def Store.read (s : Store) (addr : Nat) : Int := s addr

/-- Writing a value at an address, leaving every other address unchanged. -/
def Store.write (s : Store) (addr : Nat) (v : Int) : Store :=
  fun a2 => if a2 = addr then v else s a2

/-- The pass-by-value closure of the source. The argument value is copied
into the own slot of the callee at `slot`, and the increment mutates that
copy only. The function returns the store after the call. -/
def increment (s : Store) (slot : Nat) (arg : Int) : Store :=
  let entry := s.write slot arg
  entry.write slot (entry.read slot + 1)

/-- The pass-by-pointer closure of the source. The callee receives the
address of the variable of the caller and increments the value stored
there. -/
def incrementAddr (s : Store) (numPtr : Nat) : Store :=
  s.write numPtr (s.read numPtr + 1)

/-- The address holding the variable `count` of the caller. -/
def countAddr : Nat := 0

/-- The fresh slot of the callee frame receiving the copied argument. -/
def calleeSlot : Nat := 1

/-- The pointer demonstration of the source: `count` starts at forty-two,
`increment count` is called first, then `incrementAddr` with the address of
`count`. The pair holds the store after the first call and the store after
the second. -/
def pointer : Store × Store :=
  let s0 : Store := Store.write (fun _ => 0) countAddr 42
  let s1 := increment s0 calleeSlot (s0.read countAddr)
  let s2 := incrementAddr s1 countAddr
  (s1, s2)

/-- Claim C9: the pass-by-value call never changes any address of the
caller distinct from the callee slot; in the demonstration, `count` is
still forty-two after `increment count` and exactly forty-three after
`incrementAddr` received the address of `count`. -/
theorem pointer_demo_effects :
    (∀ (s : Store) (a1 a2 : Nat) (v : Int), a1 ≠ a2 →
      Store.read (increment s a2 v) a1 = Store.read s a1) ∧
    Store.read pointer.1 countAddr = 42 ∧
    Store.read pointer.2 countAddr = 43 := by
  refine ⟨?_, rfl, rfl⟩
  intro s a1 a2 v h
  simp [increment, Store.read, Store.write, h]

/-- A value of the language: the model keeps the four scalar kinds the
zero-value demonstration declares, with the float64 value represented
exactly as a rational. -/
inductive GoValue where
  | vint : Int → GoValue
  | vstring : String → GoValue
  | vfloat64 : Rat → GoValue
  | vbool : Bool → GoValue
deriving DecidableEq

/-- The four types of the zero-value demonstration. -/
inductive GoType where
  | tInt : GoType
  | tString : GoType
  | tFloat64 : GoType
  | tBool : GoType
deriving DecidableEq

/-- The zero value each type takes when a variable is declared without an
initializer. -/
def zeroValue : GoType → GoValue
  | GoType.tInt => GoValue.vint 0
  | GoType.tString => GoValue.vstring ""
  | GoType.tFloat64 => GoValue.vfloat64 0
  | GoType.tBool => GoValue.vbool false

namespace GolangBasics

/-- The declaration `var a int` of main, set to its zero value. -/
def a : GoValue := zeroValue GoType.tInt

/-- The declaration `var b string` of main, set to its zero value. -/
def b : GoValue := zeroValue GoType.tString

/-- The declaration `var c float64` of main, set to its zero value. -/
def c : GoValue := zeroValue GoType.tFloat64

/-- The declaration `var d bool` of main, set to its zero value. -/
def d : GoValue := zeroValue GoType.tBool

end GolangBasics

/-- Claim C10: at the first Println of main, the four variables declared
without initializers hold the zero values of their types: zero, the empty
string, zero point zero and false. -/
theorem zero_value_declarations :
    GolangBasics.a = GoValue.vint 0 ∧
    GolangBasics.b = GoValue.vstring "" ∧
    GolangBasics.c = GoValue.vfloat64 0 ∧
    GolangBasics.d = GoValue.vbool false :=
  ⟨rfl, rfl, rfl, rfl⟩
